import Mathlib

/-!
# The `Required` rule of `validation` (src/required.go)

A shallow embedding of `required.go` and of the pieces of the Go standard
library it calls (`reflect.Kind`, `reflect.Value.Len`, `strings.TrimSpace`,
`fmt.Errorf` with the verbs `%s` and `%v`), followed by theorems about
`Required.IsValid`.

Conventions of the embedding:

* a Go `string` is its sequence of bytes (`GoString`);
* an `error` is identified with the text its `Error()` method returns;
* a `[]error` is a list, the nil slice being the empty list;
* a run-time panic is the `Except.error` result.
-/

set_option autoImplicit false

namespace validation

/-! ## Go strings -/

/-- A Go string: a read-only sequence of bytes, not necessarily valid UTF-8. -/
abbrev GoString := List Nat

/-- The bytes of an ASCII string constant of the source. -/
def lit (s : String) : GoString := s.data.map Char.toNat

/-! ## `unicode/utf8` and `unicode` -/

/-- The rune `utf8.RuneError` (U+FFFD). -/
def RuneError : Nat := 0xFFFD

/-- The constant `utf8.RuneSelf`: bytes below it are runes of one byte. -/
def RuneSelf : Nat := 0x80

/-- The constant `utf8.UTFMax`: the longest encoding of a rune, in bytes. -/
def UTFMax : Nat := 4

/-- The tables `first` and `acceptRanges` of `unicode/utf8` for a leading byte
at or above `RuneSelf`: the length of the encoding and the range accepted for the
second byte; `none` for a byte that starts no encoding (the entry `xx`). -/
def leading (b : Nat) : Option (Nat × Nat × Nat) :=
  if b < 0xC2 then none
  else if b < 0xE0 then some (2, 0x80, 0xBF)
  else if b = 0xE0 then some (3, 0xA0, 0xBF)
  else if b < 0xED then some (3, 0x80, 0xBF)
  else if b = 0xED then some (3, 0x80, 0x9F)
  else if b < 0xF0 then some (3, 0x80, 0xBF)
  else if b = 0xF0 then some (4, 0x90, 0xBF)
  else if b < 0xF4 then some (4, 0x80, 0xBF)
  else if b = 0xF4 then some (4, 0x80, 0x8F)
  else none

/-- A continuation byte: `locb <= b && b <= hicb`. -/
def isCont (b : Nat) : Bool := 0x80 ≤ b && b ≤ 0xBF

/-- The function `utf8.DecodeRuneInString`: the first rune of `s` and its width
in bytes; `(RuneError, 0)` for the empty string and `(RuneError, 1)` for an
encoding that is not valid. -/
def DecodeRuneInString (s : GoString) : Nat × Nat :=
  match s with
  | [] => (RuneError, 0)
  | s0 :: rest =>
    if s0 < RuneSelf then (s0, 1)
    else
      match leading s0 with
      | none => (RuneError, 1)
      | some (sz, lo, hi) =>
        if s.length < sz then (RuneError, 1)
        else
          match rest with
          | [] => (RuneError, 1)
          | s1 :: rest1 =>
            if s1 < lo || hi < s1 then (RuneError, 1)
            else if sz ≤ 2 then ((s0 &&& 0x1F) <<< 6 ||| (s1 &&& 0x3F), 2)
            else
              match rest1 with
              | [] => (RuneError, 1)
              | s2 :: rest2 =>
                if !isCont s2 then (RuneError, 1)
                else if sz ≤ 3 then
                  ((s0 &&& 0x0F) <<< 12 ||| (s1 &&& 0x3F) <<< 6 ||| (s2 &&& 0x3F), 3)
                else
                  match rest2 with
                  | [] => (RuneError, 1)
                  | s3 :: _ =>
                    if !isCont s3 then (RuneError, 1)
                    else
                      ((s0 &&& 0x07) <<< 18 ||| (s1 &&& 0x3F) <<< 12 |||
                        (s2 &&& 0x3F) <<< 6 ||| (s3 &&& 0x3F), 4)

/-- The function `utf8.RuneStart`: the byte is not a continuation byte. -/
def RuneStart (b : Nat) : Bool := b &&& 0xC0 != 0x80

/-- The loop of `utf8.DecodeLastRuneInString` that walks `start` backwards
while `start >= lim`, until it stands on a byte that can start a rune. The
result is the value of `start` when the loop is left; it is `-1` when the loop
runs past the first byte. -/
def backToRuneStart (s : GoString) (lim : Nat) : Nat → Int
  | 0 =>
    if 0 < lim then 0
    else if RuneStart (s.getD 0 0) then 0
    else -1
  | start + 1 =>
    if start + 1 < lim then (start + 1 : Nat)
    else if RuneStart (s.getD (start + 1) 0) then (start + 1 : Nat)
    else backToRuneStart s lim start

/-- The function `utf8.DecodeLastRuneInString`: the last rune of `s` and its
width in bytes. -/
def DecodeLastRuneInString (s : GoString) : Nat × Nat :=
  let stop := s.length
  if stop = 0 then (RuneError, 0)
  else
    let r := s.getD (stop - 1) 0
    if r < RuneSelf then (r, 1)
    else
      let lim := stop - UTFMax
      let start : Nat :=
        if stop - 1 = 0 then 0 else (backToRuneStart s lim (stop - 2)).toNat
      let (r, size) := DecodeRuneInString (s.drop start)
      if start + size ≠ stop then (RuneError, 1) else (r, size)

/-- The function `unicode.IsSpace`: the runes with the Unicode property
White_Space. -/
def IsSpace (r : Nat) : Bool :=
  if r ≤ 0xFF then
    r = 0x09 || r = 0x0A || r = 0x0B || r = 0x0C || r = 0x0D || r = 0x20 ||
      r = 0x85 || r = 0xA0
  else
    r = 0x1680 || (0x2000 ≤ r && r ≤ 0x200A) || r = 0x2028 || r = 0x2029 ||
      r = 0x202F || r = 0x205F || r = 0x3000

/-! ## `strings` -/

/-- The loop of `strings.indexFunc`, a `for i, r := range s`: `t` is what is left
of the string from byte `i` on. Every round consumes at least one byte, so a
count of rounds equal to the length of `t` is never used up. -/
def indexFuncFrom (f : Nat → Bool) (truth : Bool) : Nat → Nat → GoString → Int
  | 0, _, _ => -1
  | rounds + 1, i, t =>
    match t with
    | [] => -1
    | _ :: _ =>
      let (r, size) := DecodeRuneInString t
      if f r == truth then (i : Int)
      else indexFuncFrom f truth rounds (i + size) (t.drop size)

/-- The function `strings.indexFunc`: the byte index of the first rune `r` of `s`
with `f(r) == truth`, or `-1`. -/
def indexFunc (s : GoString) (f : Nat → Bool) (truth : Bool) : Int :=
  indexFuncFrom f truth s.length 0 s

/-- The loop of `strings.lastIndexFunc`: `for i := len(s); i > 0; ...`, decoding
the last rune of `s[0:i]` in every round. -/
def lastIndexFuncFrom (s : GoString) (f : Nat → Bool) (truth : Bool) : Nat → Nat → Int
  | 0, _ => -1
  | rounds + 1, i =>
    if i = 0 then -1
    else
      let (r, size) := DecodeLastRuneInString (s.take i)
      let i := i - size
      if f r == truth then (i : Int)
      else lastIndexFuncFrom s f truth rounds i

/-- The function `strings.lastIndexFunc`: the byte index of the last rune `r` of
`s` with `f(r) == truth`, or `-1`. -/
def lastIndexFunc (s : GoString) (f : Nat → Bool) (truth : Bool) : Int :=
  lastIndexFuncFrom s f truth s.length s.length

/-- The function `strings.TrimLeftFunc`. -/
def TrimLeftFunc (s : GoString) (f : Nat → Bool) : GoString :=
  let i := indexFunc s f false
  if i = -1 then [] else s.drop i.toNat

/-- The function `strings.TrimRightFunc`. -/
def TrimRightFunc (s : GoString) (f : Nat → Bool) : GoString :=
  let i := lastIndexFunc s f false
  let i : Int :=
    if 0 ≤ i ∧ RuneSelf ≤ s.getD i.toNat 0 then
      i + (DecodeRuneInString (s.drop i.toNat)).2
    else i + 1
  s.take i.toNat

/-- The function `strings.TrimFunc`. -/
def TrimFunc (s : GoString) (f : Nat → Bool) : GoString :=
  TrimRightFunc (TrimLeftFunc s f) f

/-- The function `strings.TrimSpace`: `s` without its leading and trailing
white space, `TrimFunc(s, unicode.IsSpace)`. (The library's loop over ASCII
bytes is a shortcut to the same result.) -/
def TrimSpace (s : GoString) : GoString := TrimFunc s IsSpace

/-- The runes of a string in order, as `for _, r := range s` yields them: `t` is
what is left of the string. -/
def runesFrom : Nat → GoString → List Nat
  | 0, _ => []
  | rounds + 1, t =>
    match t with
    | [] => []
    | _ :: _ =>
      let (r, size) := DecodeRuneInString t
      r :: runesFrom rounds (t.drop size)

/-- The conversion `[]rune(s)`: the runes of a string. -/
def runes (s : GoString) : List Nat := runesFrom s.length s

/-! ## `reflect`: kinds and values -/

/-- The type `reflect.Kind`, with its constants in their order of declaration. -/
inductive Kind
  | Invalid | Bool | Int | Int8 | Int16 | Int32 | Int64
  | Uint | Uint8 | Uint16 | Uint32 | Uint64 | Uintptr
  | Float32 | Float64 | Complex64 | Complex128
  | Array | Chan | Func | Interface | Map | Pointer | Slice | String | Struct
  | UnsafePointer
  deriving DecidableEq, Repr

/-- The method `reflect.Kind.String`: the entries of `kindNames`, all in lower
case but `unsafe.Pointer`. -/
def Kind.kindNames : Kind → GoString
  | .Invalid => lit "invalid"
  | .Bool => lit "bool"
  | .Int => lit "int"
  | .Int8 => lit "int8"
  | .Int16 => lit "int16"
  | .Int32 => lit "int32"
  | .Int64 => lit "int64"
  | .Uint => lit "uint"
  | .Uint8 => lit "uint8"
  | .Uint16 => lit "uint16"
  | .Uint32 => lit "uint32"
  | .Uint64 => lit "uint64"
  | .Uintptr => lit "uintptr"
  | .Float32 => lit "float32"
  | .Float64 => lit "float64"
  | .Complex64 => lit "complex64"
  | .Complex128 => lit "complex128"
  | .Array => lit "array"
  | .Chan => lit "chan"
  | .Func => lit "func"
  | .Interface => lit "interface"
  | .Map => lit "map"
  | .Pointer => lit "ptr"
  | .Slice => lit "slice"
  | .String => lit "string"
  | .Struct => lit "struct"
  | .UnsafePointer => lit "unsafe.Pointer"

/-- The integer types of Go. -/
inductive IntType
  | int | int8 | int16 | int32 | int64
  | uint | uint8 | uint16 | uint32 | uint64 | uintptr
  deriving DecidableEq, Repr

/-- The kind of an integer type. -/
def IntType.kind : IntType → Kind
  | .int => .Int
  | .int8 => .Int8
  | .int16 => .Int16
  | .int32 => .Int32
  | .int64 => .Int64
  | .uint => .Uint
  | .uint8 => .Uint8
  | .uint16 => .Uint16
  | .uint32 => .Uint32
  | .uint64 => .Uint64
  | .uintptr => .Uintptr

/-- What a Go value holds, by the kind of its type. Floating-point and complex
numbers are their bit patterns; a nil slice or map has no backing store
(`none`); pointers, channels and functions are addresses, `0` being nil, and a
channel also has the number of elements queued in its buffer. -/
inductive Content
  | bool (b : Bool)
  | integer (t : IntType) (n : Int)
  | float32 (bits : Nat)
  | float64 (bits : Nat)
  | complex64 (bits : Nat)
  | complex128 (bits : Nat)
  | string (s : GoString)
  | struct (fields : List Content)
  | array (elems : List Content)
  | slice (elems : Option (List Content))
  | map (entries : Option (List (Content × Content)))
  | pointer (addr : Nat)
  | chan (addr : Nat) (queued : Nat)
  | func (addr : Nat)
  | unsafePointer (addr : Nat)

/-- The kind of the type of a value: `reflect.TypeOf(value).Kind()`. A value
held in an interface never has the kinds `Invalid` or `Interface`. -/
def Content.kind : Content → Kind
  | .bool _ => .Bool
  | .integer t _ => t.kind
  | .float32 _ => .Float32
  | .float64 _ => .Float64
  | .complex64 _ => .Complex64
  | .complex128 _ => .Complex128
  | .string _ => .String
  | .struct _ => .Struct
  | .array _ => .Array
  | .slice _ => .Slice
  | .map _ => .Map
  | .pointer _ => .Pointer
  | .chan _ _ => .Chan
  | .func _ => .Func
  | .unsafePointer _ => .UnsafePointer

/-- A run-time panic of the program. -/
inductive Panic
  /-- The panic of `value.(string)` on a value whose dynamic type is not `string`:
  interface conversion. -/
  | interfaceConversion
  /-- The panic of `reflect.Value.Len` on a value that has no length. -/
  | reflectLen
  deriving DecidableEq, Repr

deriving instance DecidableEq for Except

/-- A non-nil value of type `interface{}`, and equally the `reflect.Value` made
of it by `reflect.ValueOf`: its dynamic type and what it holds.

* `defined` is the name of the dynamic type when that is a defined type
  (`type MyString string`), and `none` when it is a predeclared type (`string`,
  `int`) or a type literal (`[]int`, `map[string]bool`);
* `text` is what `fmt` writes for the value under the verb `%v`. It depends on
  the methods of the type (`Format`, `Error`, `String`) and on addresses, and is
  taken as given here. For a value of the plain type `string`, `fmt` writes the
  string itself and `text` is not looked at (see `fmtV`). -/
structure Dyn where
  defined : Option String
  content : Content
  text : GoString

/-- A value of type `interface{}`: `nil`, or a dynamic value. -/
inductive Iface
  | nil
  | val (d : Dyn)

/-- The call `reflect.TypeOf(value).Kind()` on a non-nil interface value. -/
def Dyn.kind (d : Dyn) : Kind := d.content.kind

/-- The type assertion `value.(string)`: it yields the string when the dynamic
type is identical to `string`, and panics on every other type, also on a defined
type whose underlying type is `string`. -/
def Dyn.assertString (d : Dyn) : Except Panic GoString :=
  match d.defined, d.content with
  | none, .string s => .ok s
  | _, _ => .error .interfaceConversion

/-- The method `reflect.Value.Len`: the length of an array, slice, map or
string and the number of elements queued in a channel; a nil slice or map has
length 0. It panics on the other kinds. (On a pointer to an array recent
versions of Go return the length of the array; `IsValid` calls `Len` on maps,
arrays and slices only.) -/
def Dyn.Len (d : Dyn) : Except Panic Nat :=
  match d.content with
  | .array elems => .ok elems.length
  | .slice none => .ok 0
  | .slice (some elems) => .ok elems.length
  | .map none => .ok 0
  | .map (some entries) => .ok entries.length
  | .string s => .ok s.length
  | .chan _ queued => .ok queued
  | _ => .error .reflectLen

/-! ## `fmt` -/

/-- What `fmt` writes for an operand under `%v`: `<nil>` for the nil interface,
the string itself for a `string`, and for any other value the text its type
prints it as. A `reflect.Value` operand is printed as the value it holds. -/
def fmtV : Iface → GoString
  | .nil => lit "<nil>"
  | .val d =>
    match d.defined, d.content with
    | none, .string s => s
    | _, _ => d.text

/-- An `error`, identified with its message. -/
abbrev GoError := GoString

/-! ## required.go -/

/-- The type `Option` of the source, a `uint8`. -/
abbrev Opt := Fin 256

/-- Allows empty string, array or map. Default is false. -/
def AllowEmptyString : Opt := 0
/-- The second constant of the `iota` block. -/
def AllowEmptyArray : Opt := 1
/-- The third constant of the `iota` block. -/
def AllowEmptyMap : Opt := 2
/-- The fourth constant of the `iota` block. -/
def AllowEmptySlice : Opt := 3

/-- A value of type `map[Option]bool`: the nil map (`none`) or the entries of
a map; a key is looked up from the front, so each list stands for one map. -/
abbrev OptMap := Option (List (Opt × Bool))

/-- The index expression `opts[k]`: the value stored under `k`, and `false`, the
zero value, when the key is absent or the map is nil. -/
def OptMap.index (m : OptMap) (k : Opt) : Bool :=
  match m with
  | none => false
  | some entries => (entries.lookup k).getD false

/-- Required Validator is very simple. -/
structure Required where
  opts : OptMap

/-- The method `SetOpts`: `r.opts = opts`. -/
def Required.SetOpts (r : Required) (opts : OptMap) : Required :=
  { r with opts := opts }

/-- The function `singleErrorSlice`, a helper to match the interface `[]error`,
as it is called everywhere in the source, with a string and a value:
`fmt.Errorf("%s value(%v) is not a valid value for Required", tag, value)`. -/
def singleErrorSlice (tag : GoString) (value : Iface) : List GoError :=
  [tag ++ lit " value(" ++ fmtV value ++ lit ") is not a valid value for Required"]

/-- The method `stringIsValid` ensures a string is valid (not empty after
trimming). -/
def Required.stringIsValid (r : Required) (value : GoString) : Bool × List GoError :=
  if TrimSpace value ≠ [] ∨ r.opts.index AllowEmptyString = true then
    (true, [])
  else
    (false, singleErrorSlice (lit "String") (.val ⟨none, .string value, value⟩))

/-- The method `collectionLengthValid` returns true if the value contains an
element (ie, nonempty), false if empty, unless the option is set. -/
def Required.collectionLengthValid (_r : Required) (colType : GoString) (value : Dyn)
    (override : Bool) : Except Panic (Bool × List GoError) := do
  let n ← value.Len
  if 0 < n ∨ override = true then
    pure (true, [])
  else
    pure (false, singleErrorSlice colType (.val value))

/-- The method `IsValid` determines if the given value satisfies a "Required"
rule. -/
def Required.IsValid (r : Required) (value : Iface) : Except Panic (Bool × List GoError) :=
  match value with
  | .nil => pure (false, singleErrorSlice (lit "nil") value)
  | .val d =>
    let kind := d.kind
    match kind with
    | .Struct | .Bool | .Int | .Float32 | .Float64 => pure (true, [])
    | .String => do
      let s ← d.assertString
      pure (r.stringIsValid s)
    | .Map | .Array | .Slice =>
      let override : Bool :=
        match kind with
        | .Map => r.opts.index AllowEmptyMap
        | .Array => r.opts.index AllowEmptyArray
        | .Slice => r.opts.index AllowEmptySlice
        | _ => false
      r.collectionLengthValid kind.kindNames d override
    | _ => pure (false, singleErrorSlice (lit "Unknown") value)

/-! ## required.go, statement by statement on the state of the rule

The methods of the source have the receiver `r *Required`: they may read and
write the rule that `r` points to. Here every method is a function from the rule
before the call to the rule after it and what the call returns or the panic it
raises. The expressions of the source that touch the rule become the two
operations `loadOpts` (reading `r.opts`, as in `r.opts[k]`) and `storeOpts` (the
assignment `r.opts = opts`); everything else passes the rule on. -/

/-- A method with receiver `r *Required`: from the rule before the call to the
rule after it, with the value returned or the panic raised. -/
def Method (α : Type) : Type := Required → Required × Except Panic α

/-- A statement that does not touch the rule and yields `a`. -/
def Method.unit {α : Type} (a : α) : Method α := fun r => (r, .ok a)

/-- Sequencing: `f` runs on the rule that `m` leaves; a panic of `m` ends the
call, the rule staying as `m` left it. -/
def Method.seq {α β : Type} (m : Method α) (f : α → Method β) : Method β :=
  fun r =>
    match m r with
    | (r1, .ok a) => f a r1
    | (r1, .error p) => (r1, .error p)

instance : Monad Method where
  pure := Method.unit
  bind := Method.seq

/-- Reading the field `r.opts`. -/
def Method.loadOpts : Method OptMap := fun r => (r, .ok r.opts)

/-- The assignment `r.opts = opts`. -/
def Method.storeOpts (opts : OptMap) : Method Unit :=
  fun r => ({ r with opts := opts }, .ok ())

/-- An expression that does not touch the rule and may panic. -/
def Method.eval {α : Type} (e : Except Panic α) : Method α := fun r => (r, e)

/-- The method `SetOpts` on the state of the rule: `r.opts = opts`. -/
def Stateful.SetOpts (opts : OptMap) : Method Unit :=
  Method.storeOpts opts

/-- The method `stringIsValid` on the state of the rule. The condition
`strings.TrimSpace(value) != "" || r.opts[AllowEmptyString]` reads the option set
only when its left operand is false. -/
def Stateful.stringIsValid (value : GoString) : Method (Bool × List GoError) := do
  let cond ←
    if TrimSpace value ≠ [] then pure true
    else do
      let opts ← Method.loadOpts
      pure (opts.index AllowEmptyString)
  if cond = true then
    pure (true, [])
  else
    pure (false, singleErrorSlice (lit "String") (.val ⟨none, .string value, value⟩))

/-- The method `collectionLengthValid` on the state of the rule: it reads no
field of the receiver. -/
def Stateful.collectionLengthValid (colType : GoString) (value : Dyn) (override : Bool) :
    Method (Bool × List GoError) := do
  let n ← Method.eval value.Len
  if 0 < n ∨ override = true then
    pure (true, [])
  else
    pure (false, singleErrorSlice colType (.val value))

/-- The method `IsValid` on the state of the rule. -/
def Stateful.IsValid (value : Iface) : Method (Bool × List GoError) :=
  match value with
  | .nil => pure (false, singleErrorSlice (lit "nil") value)
  | .val d =>
    let kind := d.kind
    match kind with
    | .Struct | .Bool | .Int | .Float32 | .Float64 => pure (true, [])
    | .String => do
      let s ← Method.eval d.assertString
      Stateful.stringIsValid s
    | .Map | .Array | .Slice => do
      let override : Bool ←
        match kind with
        | .Map => do
          let opts ← Method.loadOpts
          pure (opts.index AllowEmptyMap)
        | .Array => do
          let opts ← Method.loadOpts
          pure (opts.index AllowEmptyArray)
        | .Slice => do
          let opts ← Method.loadOpts
          pure (opts.index AllowEmptySlice)
        | _ => pure false
      Stateful.collectionLengthValid kind.kindNames d override
    | _ => pure (false, singleErrorSlice (lit "Unknown") value)

/-! ## Vocabulary of the specification -/

/-- The sentence of the error contract,
`"<ShapeTag> value(<value>) is not a valid value for Required"`, for a tag and
the text of a value. -/
def sentence (tag value : GoString) : GoError :=
  tag ++ (lit " value(" ++ (value ++ lit ") is not a valid value for Required"))

/-- The option that relaxes the emptiness check of a shape: `AllowEmptyString`
for strings, `AllowEmptyMap` for maps, `AllowEmptyArray` for arrays,
`AllowEmptySlice` for slices, and none for any other kind. -/
def shapeOption : Kind → Option Opt
  | .String => some AllowEmptyString
  | .Map => some AllowEmptyMap
  | .Array => some AllowEmptyArray
  | .Slice => some AllowEmptySlice
  | _ => none

/-- A value of the plain type `string`, held in an interface. -/
def Iface.ofString (s : GoString) : Iface := .val ⟨none, .string s, s⟩

/-- The tags that the error sentences of `IsValid` carry. -/
def tagVocabulary : List GoString :=
  [lit "nil", lit "String", lit "map", lit "array", lit "slice", lit "Unknown"]

/-- The option set built like `m` with `m[k] = b` stored last. -/
def OptMap.store (m : OptMap) (k : Opt) (b : Bool) : OptMap :=
  some ((k, b) :: m.getD [])

/-- The option set `m` restricted to the four recognized keys, with every
missing key read as `false`. -/
def OptMap.restrict (m : OptMap) : OptMap :=
  some [(AllowEmptyString, m.index AllowEmptyString),
    (AllowEmptyArray, m.index AllowEmptyArray),
    (AllowEmptyMap, m.index AllowEmptyMap),
    (AllowEmptySlice, m.index AllowEmptySlice)]

/-- The kinds that `IsValid` knows: those of the three cases of its switch. -/
def knownKinds : List Kind :=
  [.Struct, .Bool, .Int, .Float32, .Float64, .String, .Map, .Array, .Slice]

/-! ## Facts on the library functions -/

/-- An encoding announced by a leading byte has two, three or four bytes. -/
theorem leading_size (b sz lo hi : Nat) (h : leading b = some (sz, lo, hi)) :
    (sz = 2 ∨ sz = 3 ∨ sz = 4) ∧ 0xC2 ≤ b := by
  unfold leading at h
  repeat' split at h
  all_goals (cases h <;> omega)

/-- On a string that is not empty `DecodeRuneInString` consumes at least one
byte and no more than there are. -/
theorem DecodeRuneInString_size (t : GoString) (h : t ≠ []) :
    1 ≤ (DecodeRuneInString t).2 ∧ (DecodeRuneInString t).2 ≤ t.length := by
  unfold DecodeRuneInString
  repeat' split
  all_goals first
    | contradiction
    | (simp only [List.length_cons]; omega)

/-- A rune that is decoded without error does not depend on what follows its
bytes. -/
theorem DecodeRuneInString_append (t q : GoString) (r size : Nat)
    (h : DecodeRuneInString t = (r, size)) (hr : r ≠ RuneError) :
    DecodeRuneInString (t ++ q) = (r, size) := by
  unfold DecodeRuneInString at h
  repeat' split at h
  all_goals first
    | (cases h; exact absurd rfl hr)
    | skip
  all_goals
    simp only [List.cons_append, DecodeRuneInString]
    try simp only [‹leading _ = some _›]
    split_ifs <;> first
      | exact h
      | contradiction
      | (simp only [List.length_cons, List.length_append] at *; omega)

/-- The backward walk never moves `start` forward. -/
theorem backToRuneStart_le (s : GoString) (lim n : Nat) :
    backToRuneStart s lim n ≤ (n : Int) := by
  induction n with
  | zero =>
    unfold backToRuneStart
    split_ifs <;> simp
  | succ n ih =>
    unfold backToRuneStart
    split_ifs
    · exact le_refl _
    · exact le_refl _
    · exact le_trans ih (by push_cast; omega)

/-- The last byte of a string as a slice of it. -/
theorem drop_length_sub_one_getD (p : GoString) (hp : p ≠ []) :
    p.drop (p.length - 1) = [p.getD (p.length - 1) 0] := by
  induction p with
  | nil => exact absurd rfl hp
  | cons a p ih =>
    cases p with
    | nil => rfl
    | cons b p =>
      have := ih (by simp)
      simpa using this

/-- The last rune of a string that ends in an ASCII byte. -/
theorem DecodeLastRuneInString_ascii (p : GoString) (hp : p ≠ [])
    (h : p.getD (p.length - 1) 0 < RuneSelf) :
    DecodeLastRuneInString p = (p.getD (p.length - 1) 0, 1) := by
  have hlen : 0 < p.length := List.length_pos.mpr hp
  unfold DecodeLastRuneInString
  simp only
  rw [if_neg (by omega), if_pos h]

/-- The last rune of a string that does not end in an ASCII byte is decoded
forward from a byte `start` inside the string. -/
theorem DecodeLastRuneInString_multi (p : GoString) (hp : p ≠ [])
    (h : ¬ p.getD (p.length - 1) 0 < RuneSelf) :
    ∃ start, start < p.length ∧
      DecodeLastRuneInString p =
        if start + (DecodeRuneInString (p.drop start)).2 ≠ p.length then (RuneError, 1)
        else DecodeRuneInString (p.drop start) := by
  have hlen : 0 < p.length := List.length_pos.mpr hp
  refine ⟨if p.length - 1 = 0 then 0
    else (backToRuneStart p (p.length - UTFMax) (p.length - 2)).toNat, ?_, ?_⟩
  · split_ifs with h0
    · exact hlen
    · have := backToRuneStart_le p (p.length - UTFMax) (p.length - 2)
      omega
  · unfold DecodeLastRuneInString
    simp only
    rw [if_neg (by omega), if_neg h]

/-- What `DecodeLastRuneInString` returns on a string that is not empty: an
error of width 1, or the rune that `DecodeRuneInString` reads from the last
`size` bytes, which it consumes entirely. -/
theorem DecodeLastRuneInString_spec (p : GoString) (hp : p ≠ []) :
    1 ≤ (DecodeLastRuneInString p).2 ∧ (DecodeLastRuneInString p).2 ≤ p.length ∧
    (DecodeLastRuneInString p = (RuneError, 1) ∨
      DecodeRuneInString (p.drop (p.length - (DecodeLastRuneInString p).2)) =
        DecodeLastRuneInString p) := by
  have hlen : 0 < p.length := List.length_pos.mpr hp
  by_cases h1 : p.getD (p.length - 1) 0 < RuneSelf
  · rw [DecodeLastRuneInString_ascii p hp h1]
    refine ⟨le_refl _, hlen, Or.inr ?_⟩
    simp only
    rw [drop_length_sub_one_getD p hp]
    simp only [DecodeRuneInString]
    rw [if_pos h1]
  · obtain ⟨start, hstart, heq⟩ := DecodeLastRuneInString_multi p hp h1
    rw [heq]
    split_ifs with h2
    · exact ⟨le_refl _, hlen, Or.inl rfl⟩
    · have hne : p.drop start ≠ [] := by
        intro h0
        have := congrArg List.length h0
        simp at this
        omega
      have hsz := DecodeRuneInString_size _ hne
      have h3 : start + (DecodeRuneInString (p.drop start)).2 = p.length := by
        simpa using h2
      refine ⟨hsz.1, by omega, Or.inr ?_⟩
      have h4 : p.length - (DecodeRuneInString (p.drop start)).2 = start := by omega
      rw [h4]

/-- The loop of `indexFunc` finds nothing exactly when `f` holds of every rune. -/
theorem indexFuncFrom_eq_neg_one_iff (f : Nat → Bool) (n i : Nat) (t : GoString) :
    indexFuncFrom f false n i t = -1 ↔ ∀ r ∈ runesFrom n t, f r = true := by
  induction n generalizing i t with
  | zero => simp [indexFuncFrom, runesFrom]
  | succ n ih =>
    cases t with
    | nil => simp [indexFuncFrom, runesFrom]
    | cons a t =>
      simp only [indexFuncFrom, runesFrom, List.mem_cons, forall_eq_or_imp]
      by_cases hf : f (DecodeRuneInString (a :: t)).1 = true
      · simp only [hf, true_and]
        rw [if_neg (by simp)]
        exact ih _ _
      · have hf2 : f (DecodeRuneInString (a :: t)).1 = false := by simpa using hf
        simp only [hf2]
        simp

/-- An index found by the loop of `indexFunc` lies inside the string, at a rune
of which `f` does not hold. -/
theorem indexFuncFrom_found (f : Nat → Bool) (n i : Nat) (t : GoString)
    (h : indexFuncFrom f false n i t ≠ -1) :
    ∃ k, indexFuncFrom f false n i t = ((i + k : Nat) : Int) ∧ k < t.length ∧
      f (DecodeRuneInString (t.drop k)).1 = false := by
  induction n generalizing i t with
  | zero => simp [indexFuncFrom] at h
  | succ n ih =>
    cases t with
    | nil => simp [indexFuncFrom] at h
    | cons a t =>
      simp only [indexFuncFrom] at h ⊢
      by_cases hf : f (DecodeRuneInString (a :: t)).1 = true
      · rw [if_neg (by simp [hf])] at h ⊢
        obtain ⟨k, hk, hlt, hfk⟩ := ih _ _ h
        have hsz := DecodeRuneInString_size (a :: t) (by simp)
        refine ⟨(DecodeRuneInString (a :: t)).2 + k, ?_, ?_, ?_⟩
        · rw [hk, Nat.add_assoc]
        · simp only [List.length_drop] at hlt
          omega
        · rw [← List.drop_drop]
          exact hfk
      · have hf2 : f (DecodeRuneInString (a :: t)).1 = false := by simpa using hf
        refine ⟨0, ?_, by simp, by simpa using hf2⟩
        rw [if_pos (by simp [hf2])]
        simp

/-- With a first rune of which `f` does not hold, the loop of `lastIndexFunc`
finds an index: runes on which `f` holds are decoded without error, so the
backward scan cannot consume the whole string. -/
theorem lastIndexFuncFrom_found (s : GoString) (f : Nat → Bool)
    (hf : f RuneError = false) (h0 : f (DecodeRuneInString s).1 = false) (n i : Nat)
    (hn : i ≤ n) (hi : 0 < i) (hlen : i ≤ s.length) :
    ∃ j : Nat, lastIndexFuncFrom s f false n i = (j : Int) ∧ j < i := by
  induction n generalizing i with
  | zero => omega
  | succ n ih =>
    have hpl : (s.take i).length = i := by
      rw [List.length_take]
      omega
    have hp : s.take i ≠ [] := by
      intro h
      rw [h] at hpl
      simp only [List.length_nil] at hpl
      omega
    obtain ⟨h1, h2, h3⟩ := DecodeLastRuneInString_spec (s.take i) hp
    rw [hpl] at h2 h3
    simp only [lastIndexFuncFrom]
    rw [if_neg (by omega)]
    by_cases hr : f (DecodeLastRuneInString (s.take i)).1 = true
    · rw [if_neg (by simp [hr])]
      have hpos : 0 < i - (DecodeLastRuneInString (s.take i)).2 := by
        by_contra hz
        have hsz : i - (DecodeLastRuneInString (s.take i)).2 = 0 := by omega
        rcases h3 with h3 | h3
        · rw [h3] at hr
          simp [hf] at hr
        · rw [hsz, List.drop_zero] at h3
          have hne : (DecodeLastRuneInString (s.take i)).1 ≠ RuneError := by
            intro he
            rw [he, hf] at hr
            cases hr
          have happ := DecodeRuneInString_append (s.take i) (s.drop i)
            (DecodeLastRuneInString (s.take i)).1 (DecodeLastRuneInString (s.take i)).2
            (by rw [h3]) hne
          rw [List.take_append_drop] at happ
          rw [happ, hr] at h0
          cases h0
      obtain ⟨j, hj, hlt⟩ := ih _ (by omega) hpos (by omega)
      exact ⟨j, hj, by omega⟩
    · have hr2 : f (DecodeLastRuneInString (s.take i)).1 = false := by simpa using hr
      rw [if_pos (by simp [hr2])]
      exact ⟨_, rfl, by omega⟩

/-- Trimming on the right leaves the first rune when `f` does not hold of it. -/
theorem TrimRightFunc_ne_nil (s : GoString) (f : Nat → Bool) (hf : f RuneError = false)
    (hs : s ≠ []) (h0 : f (DecodeRuneInString s).1 = false) :
    TrimRightFunc s f ≠ [] := by
  have hlen : 0 < s.length := List.length_pos.mpr hs
  obtain ⟨j, hj, hlt⟩ :=
    lastIndexFuncFrom_found s f hf h0 s.length s.length (le_refl _) hlen (le_refl _)
  have hd : s.drop j ≠ [] := by
    intro h0
    have := congrArg List.length h0
    rw [List.length_drop, List.length_nil] at this
    omega
  have hsz := (DecodeRuneInString_size _ hd).1
  unfold TrimRightFunc lastIndexFunc
  simp only [hj, Int.toNat_ofNat]
  intro h
  have hl := congrArg List.length h
  rw [List.length_take, List.length_nil] at hl
  split_ifs at hl <;> omega

/-- Trimming on the left leaves nothing when `f` holds of every rune, and else a
string that starts with a rune of which `f` does not hold. -/
theorem TrimLeftFunc_cases (s : GoString) (f : Nat → Bool) :
    ((∀ r ∈ runes s, f r = true) ∧ TrimLeftFunc s f = []) ∨
    ((¬ ∀ r ∈ runes s, f r = true) ∧ TrimLeftFunc s f ≠ [] ∧
      f (DecodeRuneInString (TrimLeftFunc s f)).1 = false) := by
  by_cases h : indexFunc s f false = -1
  · left
    refine ⟨(indexFuncFrom_eq_neg_one_iff f _ 0 s).mp h, ?_⟩
    simp [TrimLeftFunc, h]
  · right
    refine ⟨fun hall => h ((indexFuncFrom_eq_neg_one_iff f _ 0 s).mpr hall), ?_⟩
    obtain ⟨k, hk, hlt, hfk⟩ := indexFuncFrom_found f s.length 0 s h
    have hk2 : indexFunc s f false = (k : Int) := by simpa [indexFunc] using hk
    have hT : TrimLeftFunc s f = s.drop k := by
      unfold TrimLeftFunc
      simp only [hk2]
      rw [if_neg (by omega)]
      simp
    rw [hT]
    refine ⟨?_, hfk⟩
    intro h0
    have := congrArg List.length h0
    simp at this
    omega

/-- Trimming with `f` leaves nothing exactly when `f` holds of every rune of the
string, for an `f` that does not hold of `RuneError`. -/
theorem TrimFunc_eq_nil_iff (s : GoString) (f : Nat → Bool) (hf : f RuneError = false) :
    TrimFunc s f = [] ↔ ∀ r ∈ runes s, f r = true := by
  unfold TrimFunc
  rcases TrimLeftFunc_cases s f with ⟨hall, hT⟩ | ⟨hall, hne, hfirst⟩
  · rw [hT]
    exact ⟨fun _ => hall, fun _ => by simp [TrimRightFunc]⟩
  · exact ⟨fun h => absurd h (TrimRightFunc_ne_nil _ f hf hne hfirst), fun h => absurd h hall⟩

/-- The result of `strings.TrimSpace` is empty exactly when every rune of the
string is white space. -/
theorem TrimSpace_eq_nil_iff (s : GoString) :
    TrimSpace s = [] ↔ ∀ r ∈ runes s, IsSpace r = true :=
  TrimFunc_eq_nil_iff s IsSpace (by decide)

/-- The count of rounds of `indexFuncFrom` is never used up: any two counts of
at least the length of the string give the same result. -/
theorem indexFuncFrom_rounds (f : Nat → Bool) (truth : Bool) (n m i : Nat) (t : GoString)
    (hn : t.length ≤ n) (hm : t.length ≤ m) :
    indexFuncFrom f truth n i t = indexFuncFrom f truth m i t := by
  induction n generalizing m i t with
  | zero =>
    have ht : t = [] := List.length_eq_zero.mp (by omega)
    subst ht
    cases m <;> simp [indexFuncFrom]
  | succ n ih =>
    cases t with
    | nil => cases m <;> simp [indexFuncFrom]
    | cons a t =>
      cases m with
      | zero => simp at hm
      | succ m =>
        have hsz := DecodeRuneInString_size (a :: t) (by simp)
        simp only [indexFuncFrom]
        split_ifs
        · rfl
        · apply ih <;> simp only [List.length_drop, List.length_cons] at * <;> omega

/-- The count of rounds of `runesFrom` is never used up. -/
theorem runesFrom_rounds (n m : Nat) (t : GoString)
    (hn : t.length ≤ n) (hm : t.length ≤ m) :
    runesFrom n t = runesFrom m t := by
  induction n generalizing m t with
  | zero =>
    have ht : t = [] := List.length_eq_zero.mp (by omega)
    subst ht
    cases m <;> simp [runesFrom]
  | succ n ih =>
    cases t with
    | nil => cases m <;> simp [runesFrom]
    | cons a t =>
      cases m with
      | zero => simp at hm
      | succ m =>
        have hsz := DecodeRuneInString_size (a :: t) (by simp)
        simp only [runesFrom]
        congr 1
        apply ih <;> simp only [List.length_drop, List.length_cons] at * <;> omega

/-- The count of rounds of `lastIndexFuncFrom` is never used up: any two counts
of at least `i` give the same result, for an index `i` inside the string. -/
theorem lastIndexFuncFrom_rounds (s : GoString) (f : Nat → Bool) (truth : Bool)
    (n m i : Nat) (hn : i ≤ n) (hm : i ≤ m) (hi : i ≤ s.length) :
    lastIndexFuncFrom s f truth n i = lastIndexFuncFrom s f truth m i := by
  induction n generalizing m i with
  | zero =>
    have h0 : i = 0 := by omega
    subst h0
    cases m <;> simp [lastIndexFuncFrom]
  | succ n ih =>
    cases m with
    | zero =>
      have h0 : i = 0 := by omega
      subst h0
      simp [lastIndexFuncFrom]
    | succ m =>
      simp only [lastIndexFuncFrom]
      split_ifs with h0 h1
      · rfl
      · rfl
      · have hpl : (s.take i).length = i := by
          rw [List.length_take]
          omega
        have hp : s.take i ≠ [] := by
          intro h
          rw [h] at hpl
          simp only [List.length_nil] at hpl
          omega
        have hsz := (DecodeLastRuneInString_spec (s.take i) hp).1
        apply ih <;> omega

/-- The function `TrimSpace` on ASCII text: blanks, tabs and newlines at both ends
go, the blank inside stays. -/
theorem TrimSpace_ascii_example :
    TrimSpace (lit " \t a b \r\n") = lit "a b" := by decide

/-- The function `TrimSpace` on bytes that are not ASCII: the no-break space
U+00A0 (`C2 A0`) and the ideographic space U+3000 (`E3 80 80`) are trimmed,
while a lone byte `A0`, which is not valid UTF-8, is kept. -/
theorem TrimSpace_unicode_example :
    TrimSpace [0xC2, 0xA0, 0x41, 0xE3, 0x80, 0x80] = [0x41] ∧
      TrimSpace [0x20, 0xA0, 0x20] = [0xA0] := by decide

/-! ## Equations of the embedding -/

/-- The one error of `singleErrorSlice` is the sentence of the contract. -/
theorem singleErrorSlice_eq (tag : GoString) (value : Iface) :
    singleErrorSlice tag value = [sentence tag (fmtV value)] := by
  simp [singleErrorSlice, sentence, List.append_assoc]

/-- On a value of kind `String`, `IsValid` asserts the type `string` and checks
the string. -/
theorem IsValid_val_string (r : Required) (d : Dyn) (h : d.kind = .String) :
    r.IsValid (.val d) = d.assertString.map r.stringIsValid := by
  rcases d with ⟨defined, c, text⟩
  cases c <;> simp [Dyn.kind, Content.kind] at h
  case integer t n => cases t <;> simp [IntType.kind] at h
  case string s =>
    cases defined <;> simp [Required.IsValid, Dyn.kind, Content.kind, Dyn.assertString,
      Except.map, bind, Except.bind, pure, Except.pure]

/-- The outcome of `IsValid` on the nil interface. -/
theorem IsValid_nil_eq (r : Required) :
    r.IsValid .nil = .ok (false, [sentence (lit "nil") (lit "<nil>")]) := by
  simp [Required.IsValid, singleErrorSlice_eq, fmtV, pure, Except.pure]

/-- The outcome of `stringIsValid`, with its error as a sentence. -/
theorem stringIsValid_eq (r : Required) (s : GoString) :
    r.stringIsValid s =
      if TrimSpace s ≠ [] ∨ r.opts.index AllowEmptyString = true then (true, [])
      else (false, [sentence (lit "String") s]) := by
  simp [Required.stringIsValid, singleErrorSlice_eq, fmtV]

/-- On a value of the plain type `string`, `IsValid` is `stringIsValid`. -/
theorem IsValid_ofString (r : Required) (s text : GoString) :
    r.IsValid (.val ⟨none, .string s, text⟩) = .ok (r.stringIsValid s) := by
  simp [Required.IsValid, Dyn.kind, Content.kind, Dyn.assertString, bind, Except.bind, pure,
    Except.pure]

/-- On a value of a defined type whose underlying type is `string`, the type
assertion of `IsValid` panics. -/
theorem IsValid_defined_string (r : Required) (name : String) (s text : GoString) :
    r.IsValid (.val ⟨some name, .string s, text⟩) = .error .interfaceConversion := by
  simp [Required.IsValid, Dyn.kind, Content.kind, Dyn.assertString, bind, Except.bind]

/-- The first case of the switch of `IsValid`. -/
theorem IsValid_always (r : Required) (d : Dyn)
    (h : d.kind = .Struct ∨ d.kind = .Bool ∨ d.kind = .Int ∨ d.kind = .Float32 ∨
      d.kind = .Float64) :
    r.IsValid (.val d) = .ok (true, []) := by
  rcases d with ⟨defined, c, text⟩
  cases c <;> simp [Dyn.kind, Content.kind] at h <;>
    simp [Required.IsValid, Dyn.kind, Content.kind, pure, Except.pure]
  case integer t n =>
    cases t <;> simp [IntType.kind] at h
    simp [Required.IsValid, Dyn.kind, Content.kind, IntType.kind, pure, Except.pure]

/-- The case of the switch of `IsValid` for maps, arrays and slices. -/
theorem IsValid_collection (r : Required) (d : Dyn)
    (h : d.kind = .Map ∨ d.kind = .Array ∨ d.kind = .Slice) :
    ∃ n o, d.Len = .ok n ∧ shapeOption d.kind = some o ∧
      r.IsValid (.val d) =
        .ok (if 0 < n ∨ r.opts.index o = true then (true, [])
          else (false, [sentence d.kind.kindNames d.text])) := by
  rcases d with ⟨defined, c, text⟩
  cases c <;> simp [Dyn.kind, Content.kind] at h
  case integer t n => cases t <;> simp [IntType.kind] at h
  case array elems =>
    refine ⟨elems.length, AllowEmptyArray, rfl, rfl, ?_⟩
    simp only [Required.IsValid, Dyn.kind, Content.kind, Required.collectionLengthValid,
      Dyn.Len, singleErrorSlice_eq, fmtV, bind, Except.bind, pure, Except.pure]
    split <;> rfl
  case slice elems =>
    cases elems with
    | none =>
      refine ⟨0, AllowEmptySlice, rfl, rfl, ?_⟩
      simp only [Required.IsValid, Dyn.kind, Content.kind, Required.collectionLengthValid,
        Dyn.Len, singleErrorSlice_eq, fmtV, bind, Except.bind, pure, Except.pure]
      split <;> rfl
    | some es =>
      refine ⟨es.length, AllowEmptySlice, rfl, rfl, ?_⟩
      simp only [Required.IsValid, Dyn.kind, Content.kind, Required.collectionLengthValid,
        Dyn.Len, singleErrorSlice_eq, fmtV, bind, Except.bind, pure, Except.pure]
      split <;> rfl
  case map entries =>
    cases entries with
    | none =>
      refine ⟨0, AllowEmptyMap, rfl, rfl, ?_⟩
      simp only [Required.IsValid, Dyn.kind, Content.kind, Required.collectionLengthValid,
        Dyn.Len, singleErrorSlice_eq, fmtV, bind, Except.bind, pure, Except.pure]
      split <;> rfl
    | some es =>
      refine ⟨es.length, AllowEmptyMap, rfl, rfl, ?_⟩
      simp only [Required.IsValid, Dyn.kind, Content.kind, Required.collectionLengthValid,
        Dyn.Len, singleErrorSlice_eq, fmtV, bind, Except.bind, pure, Except.pure]
      split <;> rfl

/-- The default return of `IsValid`. -/
theorem IsValid_unknown (r : Required) (d : Dyn)
    (h : d.kind ∉ [Kind.Struct, Kind.Bool, Kind.Int, Kind.Float32, Kind.Float64,
      Kind.String, Kind.Map, Kind.Array, Kind.Slice]) :
    r.IsValid (.val d) = .ok (false, [sentence (lit "Unknown") d.text]) := by
  rcases d with ⟨defined, c, text⟩
  cases c <;> simp [Dyn.kind, Content.kind] at h <;>
    simp [Required.IsValid, Dyn.kind, Content.kind, singleErrorSlice_eq, fmtV, pure,
      Except.pure]
  case integer t n =>
    cases t <;> simp [IntType.kind] at h <;>
      simp [Required.IsValid, Dyn.kind, Content.kind, IntType.kind, singleErrorSlice_eq, fmtV,
        pure, Except.pure]

/-! ## The contract of `IsValid`, shape by shape -/

/-- C1: for every Go string `s` and every option set `opts`, `IsValid(s)` after
`SetOpts(opts)` returns an outcome, whose verdict is true if and only if
`strings.TrimSpace(s)` is not the empty string or `opts[AllowEmptyString]` is
true; in the invalid case the outcome carries exactly one error, the sentence
tagged `String`. -/
theorem required_string_valid_iff (r : Required) (opts : OptMap) (s text : GoString) :
    ∃ valid errs,
      (r.SetOpts opts).IsValid (.val ⟨none, .string s, text⟩) = .ok (valid, errs) ∧
      (valid = true ↔ (TrimSpace s ≠ [] ∨ opts.index AllowEmptyString = true)) ∧
      (valid = false → errs = [sentence (lit "String") s]) := by
  rw [IsValid_ofString, stringIsValid_eq]
  by_cases h : TrimSpace s ≠ [] ∨ (r.SetOpts opts).opts.index AllowEmptyString = true
  · exact ⟨true, [], by rw [if_pos h], by simpa [Required.SetOpts] using h, by simp⟩
  · exact ⟨false, _, by rw [if_neg h], by simpa [Required.SetOpts] using h, fun _ => rfl⟩

/-- C2: for every map, array or slice value `c` and every option set `opts`,
`IsValid(c)` returns an outcome whose verdict is true if and only if
`len(c) > 0` or the option matching the shape of `c` is enabled
(`AllowEmptyMap` for a map, `AllowEmptyArray` for an array, `AllowEmptySlice`
for a slice). -/
theorem required_collection_valid_iff (r : Required) (opts : OptMap) (c : Dyn)
    (h : c.kind = .Map ∨ c.kind = .Array ∨ c.kind = .Slice) :
    ∃ valid errs n o,
      (r.SetOpts opts).IsValid (.val c) = .ok (valid, errs) ∧
      c.Len = .ok n ∧ shapeOption c.kind = some o ∧
      (valid = true ↔ (0 < n ∨ opts.index o = true)) := by
  obtain ⟨n, o, hn, ho, hv⟩ := IsValid_collection (r.SetOpts opts) c h
  by_cases hc : 0 < n ∨ (r.SetOpts opts).opts.index o = true
  · rw [if_pos hc] at hv
    exact ⟨true, [], n, o, hv, hn, ho, by simpa [Required.SetOpts] using hc⟩
  · rw [if_neg hc] at hv
    exact ⟨false, _, n, o, hv, hn, ho, by simpa [Required.SetOpts] using hc⟩

/-- Witness of C2: the empty slice `[]int{}` under `AllowEmptySlice`. -/
theorem required_collection_valid_iff_witness :
    ∃ valid errs n o,
      ((Required.mk none).SetOpts (some [(AllowEmptySlice, true)])).IsValid
          (.val ⟨none, .slice (some []), lit "[]"⟩) = .ok (valid, errs) ∧
      Dyn.Len ⟨none, .slice (some []), lit "[]"⟩ = .ok n ∧
      shapeOption (Dyn.kind ⟨none, .slice (some []), lit "[]"⟩) = some o ∧
      (valid = true ↔ (0 < n ∨ OptMap.index (some [(AllowEmptySlice, true)]) o = true)) :=
  required_collection_valid_iff _ _ _ (by decide)

/-- C3: for every value whose kind is `Struct`, `Bool`, `Int`, `Float32` or
`Float64`, whatever it holds (also `0`, `false` and a zero-valued struct) and for
every option set, `IsValid` returns `(true, nil)`. -/
theorem required_scalar_always_valid (r : Required) (opts : OptMap) (d : Dyn)
    (h : d.kind = .Struct ∨ d.kind = .Bool ∨ d.kind = .Int ∨ d.kind = .Float32 ∨
      d.kind = .Float64) :
    (r.SetOpts opts).IsValid (.val d) = .ok (true, []) :=
  IsValid_always _ d h

/-- Witness of C3: the values `0`, `false`, `0.0` and a struct without fields,
under the nil option set. -/
theorem required_scalar_always_valid_witness :
    ((Required.mk none).SetOpts none).IsValid (.val ⟨none, .integer .int 0, lit "0"⟩)
        = .ok (true, []) ∧
      ((Required.mk none).SetOpts none).IsValid (.val ⟨none, .bool false, lit "false"⟩)
        = .ok (true, []) ∧
      ((Required.mk none).SetOpts none).IsValid (.val ⟨none, .float64 0, lit "0"⟩)
        = .ok (true, []) ∧
      ((Required.mk none).SetOpts none).IsValid (.val ⟨none, .struct [], lit "\x7b\x7d"⟩)
        = .ok (true, []) :=
  ⟨required_scalar_always_valid _ _ _ (by decide), required_scalar_always_valid _ _ _ (by decide),
    required_scalar_always_valid _ _ _ (by decide), required_scalar_always_valid _ _ _ (by decide)⟩

/-- C4: for every option set, `IsValid` applied to the nil interface returns
`false` with exactly one error, whose message is
`nil value(<nil>) is not a valid value for Required`; no option makes nil
valid. -/
theorem required_nil_invalid (r : Required) (opts : OptMap) :
    (r.SetOpts opts).IsValid .nil =
      .ok (false, [lit "nil value(<nil>) is not a valid value for Required"]) := by
  rw [IsValid_nil_eq]
  decide

/-- C5: for every non-nil value whose kind is none of `Struct`, `Bool`, `Int`,
`Float32`, `Float64`, `String`, `Map`, `Array`, `Slice` and for every option
set, `IsValid` returns `false` with exactly one error, the sentence tagged
`Unknown`. -/
theorem required_unknown_kind_invalid (r : Required) (opts : OptMap) (d : Dyn)
    (h : d.kind ∉ [Kind.Struct, Kind.Bool, Kind.Int, Kind.Float32, Kind.Float64,
      Kind.String, Kind.Map, Kind.Array, Kind.Slice]) :
    (r.SetOpts opts).IsValid (.val d) =
      .ok (false, [sentence (lit "Unknown") (fmtV (.val d))]) := by
  rw [IsValid_unknown _ d h]
  rcases d with ⟨defined, c, text⟩
  cases c <;> simp [Dyn.kind, Content.kind] at h <;> simp [fmtV]

/-- Witness of C5: a function, a channel and a pointer, with all four options
enabled. -/
theorem required_unknown_kind_invalid_witness :
    ((Required.mk none).SetOpts (some [(AllowEmptyString, true), (AllowEmptyArray, true),
        (AllowEmptyMap, true), (AllowEmptySlice, true)])).IsValid
          (.val ⟨none, .func 0x47b0a0, lit "0x47b0a0"⟩)
        = .ok (false, [sentence (lit "Unknown") (lit "0x47b0a0")]) ∧
      ((Required.mk none).SetOpts (some [(AllowEmptyString, true), (AllowEmptyArray, true),
        (AllowEmptyMap, true), (AllowEmptySlice, true)])).IsValid
          (.val ⟨none, .chan 0xc000012340 0, lit "0xc000012340"⟩)
        = .ok (false, [sentence (lit "Unknown") (lit "0xc000012340")]) ∧
      ((Required.mk none).SetOpts (some [(AllowEmptyString, true), (AllowEmptyArray, true),
        (AllowEmptyMap, true), (AllowEmptySlice, true)])).IsValid
          (.val ⟨none, .pointer 0xc000012345, lit "0xc000012345"⟩)
        = .ok (false, [sentence (lit "Unknown") (lit "0xc000012345")]) :=
  ⟨required_unknown_kind_invalid _ _ _ (by decide), required_unknown_kind_invalid _ _ _ (by decide),
    required_unknown_kind_invalid _ _ _ (by decide)⟩

/-- Reading an option set after a store. -/
theorem OptMap.index_store (m : OptMap) (k k2 : Opt) (b : Bool) :
    (m.store k b).index k2 = if k2 = k then b else m.index k2 := by
  by_cases h : k2 = k
  · subst h
    simp [OptMap.store, OptMap.index, List.lookup]
  · have hb : (k2 == k) = false := by simpa using h
    cases m <;> simp [OptMap.store, OptMap.index, List.lookup, hb, h]

/-- A value of kind `String` holds a string. -/
theorem content_of_kind_String (d : Dyn) (h : d.kind = .String) :
    ∃ s, d.content = .string s := by
  rcases d with ⟨defined, c, text⟩
  cases c <;> simp [Dyn.kind, Content.kind] at h
  case integer t n => cases t <;> simp [IntType.kind] at h
  case string s => exact ⟨s, rfl⟩

/-- The three ways a call of `IsValid` ends. -/
theorem IsValid_cases (r : Required) (v : Iface) :
    r.IsValid v = .ok (true, []) ∨
    (∃ tag, tag ∈ tagVocabulary ∧ r.IsValid v = .ok (false, [sentence tag (fmtV v)])) ∨
    (r.IsValid v = .error .interfaceConversion ∧
      ∃ name s text, v = .val ⟨some name, .string s, text⟩) := by
  rcases v with _ | ⟨d⟩
  · exact Or.inr (Or.inl ⟨lit "nil", by simp [tagVocabulary], IsValid_nil_eq r⟩)
  · by_cases h1 : d.kind = .Struct ∨ d.kind = .Bool ∨ d.kind = .Int ∨ d.kind = .Float32 ∨
        d.kind = .Float64
    · exact Or.inl (IsValid_always r d h1)
    by_cases h2 : d.kind = .Map ∨ d.kind = .Array ∨ d.kind = .Slice
    · obtain ⟨n, o, -, -, hv⟩ := IsValid_collection r d h2
      by_cases hc : 0 < n ∨ r.opts.index o = true
      · rw [if_pos hc] at hv
        exact Or.inl hv
      · rw [if_neg hc] at hv
        refine Or.inr (Or.inl ⟨d.kind.kindNames, ?_, ?_⟩)
        · rcases h2 with h | h | h <;> rw [h] <;> simp [tagVocabulary, Kind.kindNames]
        · rw [hv]
          rcases d with ⟨defined, c, text⟩
          cases c <;> simp [Dyn.kind, Content.kind] at h2 <;> simp [fmtV]
    by_cases h3 : d.kind = .String
    · obtain ⟨s, hs⟩ := content_of_kind_String d h3
      rcases d with ⟨defined, c, text⟩
      simp only at hs
      subst hs
      cases defined with
      | none =>
        rw [IsValid_ofString, stringIsValid_eq]
        by_cases hc : TrimSpace s ≠ [] ∨ r.opts.index AllowEmptyString = true
        · rw [if_pos hc]
          exact Or.inl rfl
        · rw [if_neg hc]
          exact Or.inr (Or.inl ⟨lit "String", by simp [tagVocabulary], rfl⟩)
      | some name =>
        exact Or.inr (Or.inr ⟨IsValid_defined_string r name s text, name, s, text, rfl⟩)
    · have h4 : d.kind ∉ [Kind.Struct, Kind.Bool, Kind.Int, Kind.Float32, Kind.Float64,
          Kind.String, Kind.Map, Kind.Array, Kind.Slice] := by
        simp only [List.mem_cons, List.mem_singleton, List.not_mem_nil, or_false]
        tauto
      refine Or.inr (Or.inl ⟨lit "Unknown", by simp [tagVocabulary], ?_⟩)
      rw [IsValid_unknown r d h4]
      rcases d with ⟨defined, c, text⟩
      cases c <;> simp [Dyn.kind, Content.kind] at h3 <;> simp [fmtV]

/-- Two rules that agree on the option of the shape of `v` treat `v` alike. -/
theorem IsValid_congr (r1 r2 : Required) (v : Iface)
    (h : ∀ d o, v = .val d → shapeOption d.kind = some o →
      r1.opts.index o = r2.opts.index o) :
    r1.IsValid v = r2.IsValid v := by
  rcases v with _ | ⟨d⟩
  · simp [IsValid_nil_eq]
  · by_cases h1 : d.kind = .Struct ∨ d.kind = .Bool ∨ d.kind = .Int ∨ d.kind = .Float32 ∨
        d.kind = .Float64
    · rw [IsValid_always r1 d h1, IsValid_always r2 d h1]
    by_cases h2 : d.kind = .Map ∨ d.kind = .Array ∨ d.kind = .Slice
    · obtain ⟨n, o, hn, ho, hv⟩ := IsValid_collection r1 d h2
      obtain ⟨n2, o2, hn2, ho2, hv2⟩ := IsValid_collection r2 d h2
      rw [hn] at hn2
      rw [ho] at ho2
      cases hn2
      cases ho2
      rw [hv, hv2, h d o rfl ho]
    by_cases h3 : d.kind = .String
    · rw [IsValid_val_string r1 d h3, IsValid_val_string r2 d h3]
      have hs : r1.stringIsValid = r2.stringIsValid := by
        funext s
        rw [stringIsValid_eq, stringIsValid_eq, h d AllowEmptyString rfl (by rw [h3]; rfl)]
      rw [hs]
    · have h4 : d.kind ∉ [Kind.Struct, Kind.Bool, Kind.Int, Kind.Float32, Kind.Float64,
          Kind.String, Kind.Map, Kind.Array, Kind.Slice] := by
        simp only [List.mem_cons, List.mem_singleton, List.not_mem_nil, or_false]
        tauto
      rw [IsValid_unknown r1 d h4, IsValid_unknown r2 d h4]

/-! ## Outcomes and error sentences -/

/-- C6: for every value and every option set, an outcome `(valid, errors)` of
`IsValid` has no error when `valid` is true and exactly one error when `valid`
is false; and `IsValid` does return an outcome for every value but one of a
defined type whose kind is `String` (a value for which the call panics, and so
has no outcome). -/
theorem required_outcome_error_count (r : Required) (opts : OptMap) (v : Iface) :
    (∀ valid errs, (r.SetOpts opts).IsValid v = .ok (valid, errs) →
      (valid = true → errs = []) ∧ (valid = false → errs.length = 1)) ∧
    ((∀ d, v = .val d → d.kind = .String → d.defined = none) →
      ∃ valid errs, (r.SetOpts opts).IsValid v = .ok (valid, errs)) := by
  rcases IsValid_cases (r.SetOpts opts) v with h | ⟨tag, -, h⟩ | ⟨h, name, s, text, hv⟩
  · rw [h]
    refine ⟨fun valid errs he => ?_, fun _ => ⟨true, [], rfl⟩⟩
    cases he
    simp
  · rw [h]
    refine ⟨fun valid errs he => ?_, fun _ => ⟨false, _, rfl⟩⟩
    cases he
    simp
  · rw [h]
    refine ⟨fun valid errs he => ?_, fun hd => ?_⟩
    · cases he
    · have := hd _ hv rfl
      simp at this

/-- Witness of C6: a string of blanks under the nil option set is rejected with
one error, and the string `hello` has an outcome. -/
theorem required_outcome_error_count_witness :
    [lit "String value(  ) is not a valid value for Required"].length = 1 ∧
    ∃ valid errs,
      ((Required.mk none).SetOpts none).IsValid (Iface.ofString (lit "hello"))
        = .ok (valid, errs) :=
  ⟨((required_outcome_error_count (Required.mk none) none (Iface.ofString (lit "  "))).1
      false [lit "String value(  ) is not a valid value for Required"] (by decide)).2 rfl,
    (required_outcome_error_count (Required.mk none) none (Iface.ofString (lit "hello"))).2
      (by
        intro d hd _
        cases hd
        rfl)⟩

/-- Counterexample to C7 as stated: the empty map `map[string]int{}` under the
nil option set is invalid with the sentence tagged `map`, in lower case, and
with no sentence tagged `Map`. -/
theorem required_empty_map_tag_lowercase :
    (Required.mk none).IsValid (.val ⟨none, .map (some []), lit "map[]"⟩) =
        .ok (false, [lit "map value(map[]) is not a valid value for Required"]) ∧
    ¬ ∃ value, (Required.mk none).IsValid (.val ⟨none, .map (some []), lit "map[]"⟩) =
        .ok (false, [sentence (lit "Map") value]) := by
  refine ⟨by decide, ?_⟩
  rintro ⟨value, h⟩
  have h0 : (Required.mk none).IsValid (.val ⟨none, .map (some []), lit "map[]"⟩) =
      .ok (false, [lit "map value(map[]) is not a valid value for Required"]) := by decide
  rw [h0] at h
  simp [sentence, lit] at h

/-- C7, amended: every invalid outcome of `IsValid` carries the one sentence
`"<ShapeTag> value(<value>) is not a valid value for Required"`, with the tag
drawn from `nil`, `String`, `map`, `array`, `slice`, `Unknown` and the value
written as `fmt` writes it under `%v`; an empty map, array or slice with its
allow-option disabled yields the tag `map`, `array` or `slice`, the lower-case
name that `reflect.Kind.String` gives. -/
theorem required_error_sentence_tags (r : Required) (opts : OptMap) (v : Iface) :
    (∀ errs, (r.SetOpts opts).IsValid v = .ok (false, errs) →
      ∃ tag, tag ∈ [lit "nil", lit "String", lit "map", lit "array", lit "slice",
        lit "Unknown"] ∧ errs = [sentence tag (fmtV v)]) ∧
    (∀ d, v = .val d → d.Len = .ok 0 →
      (d.kind = .Map → opts.index AllowEmptyMap = false →
        (r.SetOpts opts).IsValid v = .ok (false, [sentence (lit "map") (fmtV v)])) ∧
      (d.kind = .Array → opts.index AllowEmptyArray = false →
        (r.SetOpts opts).IsValid v = .ok (false, [sentence (lit "array") (fmtV v)])) ∧
      (d.kind = .Slice → opts.index AllowEmptySlice = false →
        (r.SetOpts opts).IsValid v = .ok (false, [sentence (lit "slice") (fmtV v)]))) := by
  constructor
  · intro errs he
    rcases IsValid_cases (r.SetOpts opts) v with h | ⟨tag, ht, h⟩ | ⟨h, -⟩
    · rw [h] at he
      cases he
    · rw [h] at he
      cases he
      exact ⟨tag, ht, rfl⟩
    · rw [h] at he
      cases he
  · intro d hv hlen
    subst hv
    have key : ∀ o, (d.kind = .Map ∨ d.kind = .Array ∨ d.kind = .Slice) →
        shapeOption d.kind = some o → opts.index o = false →
        (r.SetOpts opts).IsValid (.val d) =
          .ok (false, [sentence d.kind.kindNames (fmtV (.val d))]) := by
      intro o hk ho hidx
      obtain ⟨n, o2, hn, ho2, hval⟩ := IsValid_collection (r.SetOpts opts) d hk
      rw [hlen] at hn
      rw [ho] at ho2
      cases hn
      cases ho2
      have hneg : ¬ (0 < 0 ∨ (r.SetOpts opts).opts.index o = true) := by
        simp [Required.SetOpts, hidx]
      rw [if_neg hneg] at hval
      rw [hval]
      have ht : fmtV (.val d) = d.text := by
        rcases d with ⟨defined, c, text⟩
        cases c <;> simp [Dyn.kind, Content.kind] at hk <;> simp [fmtV]
      rw [ht]
    refine ⟨fun hk hidx => ?_, fun hk hidx => ?_, fun hk hidx => ?_⟩
    · have := key AllowEmptyMap (Or.inl hk) (by rw [hk]; rfl) hidx
      rw [hk] at this
      exact this
    · have := key AllowEmptyArray (Or.inr (Or.inl hk)) (by rw [hk]; rfl) hidx
      rw [hk] at this
      exact this
    · have := key AllowEmptySlice (Or.inr (Or.inr hk)) (by rw [hk]; rfl) hidx
      rw [hk] at this
      exact this

/-- Witness of C7, amended: the nil slice under an option set that allows empty
maps only. -/
theorem required_error_sentence_tags_witness :
    ((Required.mk none).SetOpts (some [(AllowEmptyMap, true)])).IsValid
        (.val ⟨none, .slice none, lit "[]"⟩) =
      .ok (false, [lit "slice value([]) is not a valid value for Required"]) :=
  ((required_error_sentence_tags (Required.mk none) (some [(AllowEmptyMap, true)])
    (.val ⟨none, .slice none, lit "[]"⟩)).2 _ rfl rfl).2.2 rfl (by decide)

/-- C8, at the failing input: for a value `MyString("hello")` of a defined type
`type MyString string`, whose kind is `String`, the type assertion
`value.(string)` panics and `IsValid` returns no outcome, under every option
set. -/
theorem required_defined_string_panics (r : Required) (opts : OptMap) :
    (r.SetOpts opts).IsValid (.val ⟨some "MyString", .string (lit "hello"), lit "hello"⟩) =
      .error .interfaceConversion :=
  IsValid_defined_string _ _ _ _

/-- C9, at the failing input: the value `int64(0)` has kind `Int64`, which the
first case of the switch does not list, and `IsValid` returns `false` with the
sentence tagged `Unknown`, under every option set. -/
theorem required_int64_zero_unknown (r : Required) (opts : OptMap) :
    (r.SetOpts opts).IsValid (.val ⟨none, .integer .int64 0, lit "0"⟩) =
      .ok (false, [lit "Unknown value(0) is not a valid value for Required"]) := by
  rw [IsValid_unknown _ _ (by decide)]
  decide

/-- C10: option independence. Under two option sets that agree on the option
matching the shape of `v` (`AllowEmptyString` for strings, `AllowEmptyMap` for
maps, `AllowEmptyArray` for arrays, `AllowEmptySlice` for slices, no option for
any other shape) `IsValid(v)` ends alike; and storing any boolean under
`AllowEmptyMap` changes nothing for a slice, an array or a string. -/
theorem required_option_independence (r : Required) (v : Iface) :
    (∀ o1 o2 : OptMap,
      (∀ d o, v = .val d → shapeOption d.kind = some o → o1.index o = o2.index o) →
      (r.SetOpts o1).IsValid v = (r.SetOpts o2).IsValid v) ∧
    (∀ d, v = .val d → (d.kind = .Slice ∨ d.kind = .Array ∨ d.kind = .String) →
      ∀ (opts : OptMap) (b : Bool),
        (r.SetOpts (opts.store AllowEmptyMap b)).IsValid v = (r.SetOpts opts).IsValid v) := by
  constructor
  · intro o1 o2 h
    exact IsValid_congr _ _ v h
  · intro d hv hk opts b
    apply IsValid_congr
    intro d2 o hv2 ho
    rw [hv] at hv2
    cases hv2
    have hne : o ≠ AllowEmptyMap := by
      rcases hk with hk | hk | hk <;> rw [hk] at ho <;> cases ho <;> decide
    simp [Required.SetOpts, OptMap.index_store, hne]

/-- Witness of C10: the empty slice is rejected with `AllowEmptyMap` enabled as
it is without, and a string of blanks likewise. -/
theorem required_option_independence_witness :
    ((Required.mk none).SetOpts (OptMap.store none AllowEmptyMap true)).IsValid
        (.val ⟨none, .slice (some []), lit "[]"⟩) =
      ((Required.mk none).SetOpts none).IsValid (.val ⟨none, .slice (some []), lit "[]"⟩) ∧
    ((Required.mk none).SetOpts (some [(AllowEmptyMap, true)])).IsValid
        (Iface.ofString (lit "  ")) =
      ((Required.mk none).SetOpts (some [(AllowEmptyMap, false)])).IsValid
        (Iface.ofString (lit "  ")) :=
  ⟨(required_option_independence (Required.mk none) (.val ⟨none, .slice (some []), lit "[]"⟩)).2
      _ rfl (Or.inl rfl) none true,
    (required_option_independence (Required.mk none) (Iface.ofString (lit "  "))).1
      (some [(AllowEmptyMap, true)]) (some [(AllowEmptyMap, false)])
      (by
        intro d o hd ho
        cases hd
        cases ho
        decide)⟩

/-! ## Option sets and the state of the rule -/

/-- Reading a recognized key from the restricted option set. -/
theorem OptMap.index_restrict (m : OptMap) (k : Opt)
    (hk : k = AllowEmptyString ∨ k = AllowEmptyArray ∨ k = AllowEmptyMap ∨
      k = AllowEmptySlice) :
    m.restrict.index k = m.index k := by
  rcases hk with h | h | h | h <;> subst h <;>
    simp [OptMap.restrict, OptMap.index, List.lookup, AllowEmptyString, AllowEmptyArray,
      AllowEmptyMap, AllowEmptySlice]

/-- The option of a shape is one of the four recognized keys. -/
theorem shapeOption_recognized (k : Kind) (o : Opt) (h : shapeOption k = some o) :
    o = AllowEmptyString ∨ o = AllowEmptyArray ∨ o = AllowEmptyMap ∨ o = AllowEmptySlice := by
  cases k <;> simp [shapeOption] at h <;> simp [← h]

/-- A key that no entry of a map carries reads as `false`. -/
theorem OptMap.index_absent (es : List (Opt × Bool)) (k : Opt)
    (h : ∀ p ∈ es, p.1 ≠ k) : OptMap.index (some es) k = false := by
  induction es with
  | nil => rfl
  | cons p es ih =>
    have hp : (k == p.1) = false := by
      have := h p (List.mem_cons_self _ _)
      simpa using fun e => this e.symm
    have ih2 := ih (fun q hq => h q (List.mem_cons_of_mem _ hq))
    rcases p with ⟨a, b⟩
    simp only [OptMap.index, List.lookup] at ih2 ⊢
    simp only at hp
    rw [hp]
    exact ih2

/-- Without the option of its shape, the empty string and an empty collection
are rejected. -/
theorem IsValid_empty_rejected (r : Required)
    (h : ∀ k, (k = AllowEmptyString ∨ k = AllowEmptyArray ∨ k = AllowEmptyMap ∨
      k = AllowEmptySlice) → r.opts.index k = false) :
    r.IsValid (Iface.ofString []) = .ok (false, [sentence (lit "String") []]) ∧
    ∀ d : Dyn, (d.kind = .Map ∨ d.kind = .Array ∨ d.kind = .Slice) → d.Len = .ok 0 →
      r.IsValid (.val d) = .ok (false, [sentence d.kind.kindNames d.text]) := by
  constructor
  · rw [Iface.ofString, IsValid_ofString, stringIsValid_eq]
    have h0 : TrimSpace [] = [] := by decide
    rw [if_neg (by simp [h0, h AllowEmptyString (Or.inl rfl)])]
  · intro d hk hlen
    obtain ⟨n, o, hn, ho, hv⟩ := IsValid_collection r d hk
    rw [hlen] at hn
    cases hn
    rw [hv, if_neg (by simp [h o (shapeOption_recognized _ _ ho)])]

/-- C11: `SetOpts` replaces the active option set. After `SetOpts(o1)` and then
`SetOpts(o2)` the rule holds `o2`, and `IsValid(v)` ends as it does after
`SetOpts(o2)` alone; nothing of `o1` survives. -/
theorem required_SetOpts_replaces (r : Required) (o1 o2 : OptMap) (v : Iface) :
    ((r.SetOpts o1).SetOpts o2).opts = o2 ∧
    ((r.SetOpts o1).SetOpts o2).IsValid v = (r.SetOpts o2).IsValid v :=
  ⟨rfl, rfl⟩

/-- C12: absent and unknown options behave as disabled. `IsValid(v)` under an
option set ends as under that set restricted to the four recognized keys with
every missing key read as `false`; and under the nil map, the empty map or a map
whose keys are all unrecognized (4 or above), the empty string and every empty
map, array or slice are rejected. -/
theorem required_absent_options_disabled (r : Required) (opts : OptMap) (v : Iface) :
    (r.SetOpts opts).IsValid v = (r.SetOpts opts.restrict).IsValid v ∧
    ((opts = none ∨ opts = some [] ∨ ∃ es, opts = some es ∧ ∀ p ∈ es, 4 ≤ p.1.val) →
      (r.SetOpts opts).IsValid (Iface.ofString []) =
        .ok (false, [sentence (lit "String") []]) ∧
      ∀ d : Dyn, (d.kind = .Map ∨ d.kind = .Array ∨ d.kind = .Slice) → d.Len = .ok 0 →
        (r.SetOpts opts).IsValid (.val d) =
          .ok (false, [sentence d.kind.kindNames d.text])) := by
  constructor
  · apply IsValid_congr
    intro d o _ ho
    exact (OptMap.index_restrict opts o (shapeOption_recognized _ _ ho)).symm
  · intro h
    apply IsValid_empty_rejected
    intro k hk
    have hlt : k.val < 4 := by
      rcases hk with h | h | h | h <;> subst h <;> decide
    rcases h with h | h | ⟨es, h, hes⟩
    · subst h
      rfl
    · subst h
      rfl
    · subst h
      apply OptMap.index_absent
      intro p hp hpk
      have := hes p hp
      rw [hpk] at this
      omega

/-- Witness of C12: under the map `map[Option]bool{Option(7): true}` the empty
string and the nil slice are rejected. -/
theorem required_absent_options_disabled_witness :
    ((Required.mk none).SetOpts (some [(7, true)])).IsValid (Iface.ofString []) =
        .ok (false, [lit "String value() is not a valid value for Required"]) ∧
      ((Required.mk none).SetOpts (some [(7, true)])).IsValid
          (.val ⟨none, .slice none, lit "[]"⟩) =
        .ok (false, [lit "slice value([]) is not a valid value for Required"]) :=
  ⟨((required_absent_options_disabled (Required.mk none) (some [(7, true)]) .nil).2
      (Or.inr (Or.inr ⟨_, rfl, by
        intro p hp
        simp only [List.mem_singleton] at hp
        subst hp
        decide⟩))).1,
    ((required_absent_options_disabled (Required.mk none) (some [(7, true)]) .nil).2
      (Or.inr (Or.inr ⟨_, rfl, by
        intro p hp
        simp only [List.mem_singleton] at hp
        subst hp
        decide⟩))).2 ⟨none, .slice none, lit "[]"⟩
        (Or.inr (Or.inr rfl)) rfl⟩

/-- The method `stringIsValid` leaves the rule as it was, and returns what
`Required.stringIsValid` computes from the rule. -/
theorem Stateful.stringIsValid_run (s : GoString) (r : Required) :
    Stateful.stringIsValid s r = (r, .ok (r.stringIsValid s)) := by
  by_cases ht : TrimSpace s ≠ []
  · simp [Stateful.stringIsValid, Required.stringIsValid, bind, pure, Method.seq,
      Method.unit, ht]
  · by_cases ho : r.opts.index AllowEmptyString = true
    · simp [Stateful.stringIsValid, Required.stringIsValid, bind, pure, Method.seq,
        Method.unit, Method.loadOpts, ht, ho]
    · simp [Stateful.stringIsValid, Required.stringIsValid, bind, pure, Method.seq,
        Method.unit, Method.loadOpts, ht, ho]

/-- The method `collectionLengthValid` leaves the rule as it was, also when
`Len` panics. -/
theorem Stateful.collectionLengthValid_run (colType : GoString) (d : Dyn) (override : Bool)
    (r : Required) :
    Stateful.collectionLengthValid colType d override r =
      (r, r.collectionLengthValid colType d override) := by
  cases hl : d.Len with
  | error p =>
    simp [Stateful.collectionLengthValid, Required.collectionLengthValid, bind, pure,
      Method.seq, Method.eval, Except.bind, hl]
  | ok n =>
    by_cases hc : 0 < n ∨ override = true
    · simp [Stateful.collectionLengthValid, Required.collectionLengthValid, bind, pure,
        Method.seq, Method.unit, Method.eval, Except.bind, Except.pure, hl, hc]
    · simp [Stateful.collectionLengthValid, Required.collectionLengthValid, bind, pure,
        Method.seq, Method.unit, Method.eval, Except.bind, Except.pure, hl, hc]

/-- The method `IsValid`, run statement by statement on the state of the rule,
leaves the rule as it was and returns what `Required.IsValid` computes from
the rule. -/
theorem Stateful.IsValid_run (v : Iface) (r : Required) :
    Stateful.IsValid v r = (r, r.IsValid v) := by
  rcases v with _ | ⟨⟨defined, c, text⟩⟩
  · rfl
  · cases c with
    | integer t n =>
      cases t <;> rfl
    | string s =>
      cases defined with
      | none =>
        simp [Stateful.IsValid, Required.IsValid, Dyn.kind, Content.kind, Dyn.assertString,
          bind, pure, Method.seq, Method.eval, Except.bind, Except.pure,
          Stateful.stringIsValid_run]
      | some name =>
        simp [Stateful.IsValid, Required.IsValid, Dyn.kind, Content.kind, Dyn.assertString,
          bind, Method.seq, Method.eval, Except.bind]
    | array elems =>
      simp [Stateful.IsValid, Required.IsValid, Dyn.kind, Content.kind, bind, pure,
        Method.seq, Method.unit, Method.loadOpts, Stateful.collectionLengthValid_run]
    | slice elems =>
      simp [Stateful.IsValid, Required.IsValid, Dyn.kind, Content.kind, bind, pure,
        Method.seq, Method.unit, Method.loadOpts, Stateful.collectionLengthValid_run]
    | map entries =>
      simp [Stateful.IsValid, Required.IsValid, Dyn.kind, Content.kind, bind, pure,
        Method.seq, Method.unit, Method.loadOpts, Stateful.collectionLengthValid_run]
    | _ => rfl

/-- The method `SetOpts` does write the rule: the rule after the call holds the
new option set. -/
theorem Stateful.SetOpts_run (opts : OptMap) (r : Required) :
    Stateful.SetOpts opts r = (r.SetOpts opts, .ok ()) := rfl

/-- The state of the rule is not constant: after `SetOpts` with an empty map, a
rule that held the nil map holds another option set. -/
theorem Stateful.SetOpts_changes_rule :
    (Stateful.SetOpts (some []) (Required.mk none)).1 ≠ Required.mk none := by
  intro h
  cases h

/-- C13: `IsValid` has no hidden state. Run statement by statement on the state
of the rule, a call of `IsValid(v)` leaves the option set of the rule as it
was, whether it returns or panics, and a second call on the same value, made on
the rule that the first call left, ends as the first did, with the same verdict
and the same error message. -/
theorem required_IsValid_no_hidden_state (r : Required) (v : Iface) :
    (Stateful.IsValid v r).1.opts = r.opts ∧
    (Stateful.IsValid v (Stateful.IsValid v r).1).2 = (Stateful.IsValid v r).2 := by
  rw [Stateful.IsValid_run]
  exact ⟨rfl, by rw [Stateful.IsValid_run]⟩

/-! ## Strings, monotonicity and typed nils -/

/-- A rule is at least as permissive as another on every value: what is valid
under `r1` is valid under `r2` when `r2` enables every option that `r1` enables. -/
theorem IsValid_mono (r1 r2 : Required) (v : Iface)
    (hle : ∀ k, r1.opts.index k = true → r2.opts.index k = true)
    (h : ∃ errs, r1.IsValid v = .ok (true, errs)) :
    r2.IsValid v = .ok (true, []) := by
  obtain ⟨errs, h⟩ := h
  rcases v with _ | ⟨d⟩
  · rw [IsValid_nil_eq] at h
    cases h
  · by_cases h1 : d.kind = .Struct ∨ d.kind = .Bool ∨ d.kind = .Int ∨ d.kind = .Float32 ∨
        d.kind = .Float64
    · exact IsValid_always r2 d h1
    by_cases h2 : d.kind = .Map ∨ d.kind = .Array ∨ d.kind = .Slice
    · obtain ⟨n, o, hn, ho, hv⟩ := IsValid_collection r1 d h2
      obtain ⟨n2, o2, hn2, ho2, hv2⟩ := IsValid_collection r2 d h2
      rw [hn] at hn2
      rw [ho] at ho2
      cases hn2
      cases ho2
      by_cases hc : 0 < n ∨ r1.opts.index o = true
      · have hc2 : 0 < n ∨ r2.opts.index o = true := hc.imp id (hle o)
        rw [hv2, if_pos hc2]
      · rw [hv, if_neg hc] at h
        cases h
    by_cases h3 : d.kind = .String
    · rw [IsValid_val_string r1 d h3] at h
      rw [IsValid_val_string r2 d h3]
      cases hs : d.assertString with
      | error p =>
        rw [hs] at h
        cases h
      | ok s =>
        rw [hs] at h
        simp only [Except.map, stringIsValid_eq] at h ⊢
        by_cases hc : TrimSpace s ≠ [] ∨ r1.opts.index AllowEmptyString = true
        · have hc2 : TrimSpace s ≠ [] ∨ r2.opts.index AllowEmptyString = true :=
            hc.imp id (hle _)
          rw [if_pos hc2]
        · rw [if_neg hc] at h
          cases h
    · have h4 : d.kind ∉ [Kind.Struct, Kind.Bool, Kind.Int, Kind.Float32, Kind.Float64,
          Kind.String, Kind.Map, Kind.Array, Kind.Slice] := by
        simp only [List.mem_cons, List.mem_singleton, List.not_mem_nil, or_false]
        tauto
      rw [IsValid_unknown r1 d h4] at h
      cases h

/-- C14: with `AllowEmptyString` disabled, a Go string is invalid exactly when
every one of its characters (the runes that ranging over it yields) is white
space, as for the empty string and for strings of blanks, tabs or newlines; and
a string with at least one character that is not white space is valid under
every option set. -/
theorem required_string_invalid_iff_blank (r : Required) (s text : GoString) :
    (∀ opts : OptMap, opts.index AllowEmptyString = false →
      ((∃ errs, (r.SetOpts opts).IsValid (.val ⟨none, .string s, text⟩) = .ok (false, errs)) ↔
        ∀ c ∈ runes s, IsSpace c = true)) ∧
    ((∃ c ∈ runes s, IsSpace c = false) →
      ∀ opts : OptMap,
        (r.SetOpts opts).IsValid (.val ⟨none, .string s, text⟩) = .ok (true, [])) := by
  constructor
  · intro opts hoff
    rw [IsValid_ofString, stringIsValid_eq, ← TrimSpace_eq_nil_iff]
    by_cases ht : TrimSpace s = []
    · rw [if_neg (by simp [ht, Required.SetOpts, hoff])]
      exact ⟨fun _ => ht, fun _ => ⟨_, rfl⟩⟩
    · rw [if_pos (Or.inl ht)]
      constructor
      · rintro ⟨errs, he⟩
        cases he
      · intro h
        exact absurd h ht
  · rintro ⟨c, hc, hns⟩ opts
    have ht : TrimSpace s ≠ [] := by
      intro h
      have := (TrimSpace_eq_nil_iff s).mp h c hc
      rw [hns] at this
      cases this
    rw [IsValid_ofString, stringIsValid_eq, if_pos (Or.inl ht)]

/-- Witness of C14: under the nil option set the empty string, three blanks and
a tab with a newline are rejected; `hello` and `  a  ` are valid, here with
`AllowEmptyString` stored as `false`. -/
theorem required_string_invalid_iff_blank_witness :
    (∃ errs, ((Required.mk none).SetOpts none).IsValid (.val ⟨none, .string [], []⟩)
      = .ok (false, errs)) ∧
    (∃ errs, ((Required.mk none).SetOpts none).IsValid
      (.val ⟨none, .string (lit "   "), lit "   "⟩) = .ok (false, errs)) ∧
    (∃ errs, ((Required.mk none).SetOpts none).IsValid
      (.val ⟨none, .string (lit "\t\n"), lit "\t\n"⟩) = .ok (false, errs)) ∧
    ((Required.mk none).SetOpts (some [(AllowEmptyString, false)])).IsValid
      (.val ⟨none, .string (lit "hello"), lit "hello"⟩) = .ok (true, []) ∧
    ((Required.mk none).SetOpts (some [(AllowEmptyString, false)])).IsValid
      (.val ⟨none, .string (lit "  a  "), lit "  a  "⟩) = .ok (true, []) :=
  ⟨((required_string_invalid_iff_blank (Required.mk none) [] []).1 none rfl).2 (by decide),
    ((required_string_invalid_iff_blank (Required.mk none) (lit "   ") (lit "   ")).1
      none rfl).2 (by decide),
    ((required_string_invalid_iff_blank (Required.mk none) (lit "\t\n") (lit "\t\n")).1
      none rfl).2 (by decide),
    (required_string_invalid_iff_blank (Required.mk none) (lit "hello") (lit "hello")).2
      ⟨0x68, by decide, by decide⟩ _,
    (required_string_invalid_iff_blank (Required.mk none) (lit "  a  ") (lit "  a  ")).2
      ⟨0x61, by decide, by decide⟩ _⟩

/-- C15: for every string `s` that `IsValid` rejects, the one error has the
message `String value(` ++ `s` ++ `) is not a valid value for Required`, with
the string as it was given, not trimmed. -/
theorem required_string_error_message (r : Required) (opts : OptMap) (s text : GoString)
    (errs : List GoError)
    (h : (r.SetOpts opts).IsValid (.val ⟨none, .string s, text⟩) = .ok (false, errs)) :
    errs = [lit "String value(" ++ s ++ lit ") is not a valid value for Required"] := by
  rw [IsValid_ofString, stringIsValid_eq] at h
  split_ifs at h
  · cases h
  · cases h
    simp [sentence, lit]

/-- Witness of C15: the string of a blank, a tab and a blank is rejected under
the nil option set, with a message that keeps the three bytes. -/
theorem required_string_error_message_witness :
    [lit "String value( \t ) is not a valid value for Required"] =
      [lit "String value(" ++ lit " \t " ++ lit ") is not a valid value for Required"] :=
  required_string_error_message (Required.mk none) none (lit " \t ") (lit " \t ") _
    (by decide)

/-- C16: monotonicity in the options. When every option enabled in `o1` is
enabled in `o2`, a value that is valid under `o1` is valid under `o2`. -/
theorem required_options_monotone (r : Required) (o1 o2 : OptMap) (v : Iface)
    (hle : ∀ k, o1.index k = true → o2.index k = true)
    (h : ∃ errs, (r.SetOpts o1).IsValid v = .ok (true, errs)) :
    (r.SetOpts o2).IsValid v = .ok (true, []) :=
  IsValid_mono _ _ v hle h

/-- Witness of C16: the empty map, valid with `AllowEmptyMap`, stays valid when
`AllowEmptySlice` is enabled as well. -/
theorem required_options_monotone_witness :
    ((Required.mk none).SetOpts
        (some [(AllowEmptySlice, true), (AllowEmptyMap, true)])).IsValid
      (.val ⟨none, .map (some []), lit "map[]"⟩) = .ok (true, []) :=
  required_options_monotone (Required.mk none) (some [(AllowEmptyMap, true)])
    (some [(AllowEmptySlice, true), (AllowEmptyMap, true)])
    (.val ⟨none, .map (some []), lit "map[]"⟩)
    (by
      intro k hk
      by_cases hm : k = AllowEmptyMap
      · subst hm
        decide
      · have hb : (k == AllowEmptyMap) = false := by simpa using hm
        simp [OptMap.index, List.lookup, hb] at hk)
    ⟨[], by decide⟩

/-- With all four options enabled, the values that `IsValid` finds valid are
those of a known kind, but for the kind `String` only those of the type `string`
itself. -/
theorem IsValid_all_enabled_iff (r : Required)
    (h4 : ∀ k, (k = AllowEmptyString ∨ k = AllowEmptyArray ∨ k = AllowEmptyMap ∨
      k = AllowEmptySlice) → r.opts.index k = true) (v : Iface) :
    (∃ errs, r.IsValid v = .ok (true, errs)) ↔
      ∃ d, v = .val d ∧ d.kind ∈ knownKinds ∧ (d.kind = .String → d.defined = none) := by
  constructor
  · rintro ⟨errs, h⟩
    rcases v with _ | ⟨d⟩
    · rw [IsValid_nil_eq] at h
      cases h
    · refine ⟨d, rfl, ?_, ?_⟩
      · by_contra hk
        rw [IsValid_unknown r d hk] at h
        cases h
      · intro hs
        obtain ⟨s, hc⟩ := content_of_kind_String d hs
        rcases d with ⟨defined, c, text⟩
        simp only at hc
        subst hc
        cases defined with
        | none => rfl
        | some name =>
          rw [IsValid_defined_string] at h
          cases h
  · rintro ⟨d, hv, hk, hdef⟩
    subst hv
    by_cases h1 : d.kind = .Struct ∨ d.kind = .Bool ∨ d.kind = .Int ∨ d.kind = .Float32 ∨
        d.kind = .Float64
    · exact ⟨[], IsValid_always r d h1⟩
    by_cases h2 : d.kind = .Map ∨ d.kind = .Array ∨ d.kind = .Slice
    · obtain ⟨n, o, -, ho, hval⟩ := IsValid_collection r d h2
      rw [if_pos (Or.inr (h4 o (shapeOption_recognized _ _ ho)))] at hval
      exact ⟨[], hval⟩
    · have h3 : d.kind = .String := by
        simp only [knownKinds, List.mem_cons, List.mem_singleton, List.not_mem_nil,
          or_false] at hk
        tauto
      obtain ⟨s, hc⟩ := content_of_kind_String d h3
      have hd := hdef h3
      rcases d with ⟨defined, c, text⟩
      simp only at hc hd
      subst hc
      subst hd
      refine ⟨[], ?_⟩
      rw [IsValid_ofString, stringIsValid_eq, if_pos (Or.inr (h4 _ (Or.inl rfl)))]

/-- C17: a nil map or nil slice held in an interface is not the nil interface.
`IsValid` sees a `Map` or a `Slice` of length 0: it is rejected with the sentence
tagged by the name of its kind when the option of its shape is disabled, and
valid when `AllowEmptyMap`, respectively `AllowEmptySlice`, is enabled. -/
theorem required_typed_nil_collection (r : Required) (opts : OptMap)
    (defined : Option String) (text : GoString) :
    (Dyn.kind ⟨defined, .map none, text⟩ = .Map ∧
      Dyn.Len ⟨defined, .map none, text⟩ = .ok 0 ∧
      (opts.index AllowEmptyMap = false →
        (r.SetOpts opts).IsValid (.val ⟨defined, .map none, text⟩) =
          .ok (false, [sentence (lit "map") text])) ∧
      (opts.index AllowEmptyMap = true →
        (r.SetOpts opts).IsValid (.val ⟨defined, .map none, text⟩) = .ok (true, []))) ∧
    (Dyn.kind ⟨defined, .slice none, text⟩ = .Slice ∧
      Dyn.Len ⟨defined, .slice none, text⟩ = .ok 0 ∧
      (opts.index AllowEmptySlice = false →
        (r.SetOpts opts).IsValid (.val ⟨defined, .slice none, text⟩) =
          .ok (false, [sentence (lit "slice") text])) ∧
      (opts.index AllowEmptySlice = true →
        (r.SetOpts opts).IsValid (.val ⟨defined, .slice none, text⟩) = .ok (true, []))) := by
  refine ⟨⟨rfl, rfl, fun h => ?_, fun h => ?_⟩, ⟨rfl, rfl, fun h => ?_, fun h => ?_⟩⟩
  · obtain ⟨n, o, hn, ho, hv⟩ := IsValid_collection (r.SetOpts opts)
      ⟨defined, .map none, text⟩ (Or.inl rfl)
    cases hn
    cases ho
    rw [hv, if_neg (by simp [Required.SetOpts, h])]
    rfl
  · obtain ⟨n, o, hn, ho, hv⟩ := IsValid_collection (r.SetOpts opts)
      ⟨defined, .map none, text⟩ (Or.inl rfl)
    cases hn
    cases ho
    rw [hv, if_pos (Or.inr (by simpa [Required.SetOpts] using h))]
  · obtain ⟨n, o, hn, ho, hv⟩ := IsValid_collection (r.SetOpts opts)
      ⟨defined, .slice none, text⟩ (Or.inr (Or.inr rfl))
    cases hn
    cases ho
    rw [hv, if_neg (by simp [Required.SetOpts, h])]
    rfl
  · obtain ⟨n, o, hn, ho, hv⟩ := IsValid_collection (r.SetOpts opts)
      ⟨defined, .slice none, text⟩ (Or.inr (Or.inr rfl))
    cases hn
    cases ho
    rw [hv, if_pos (Or.inr (by simpa [Required.SetOpts] using h))]

/-- Witness of C17: the nil map `map[string]int(nil)` under the nil option set
and under `AllowEmptyMap`, and the nil slice `[]int(nil)` likewise. -/
theorem required_typed_nil_collection_witness :
    ((Required.mk none).SetOpts none).IsValid (.val ⟨none, .map none, lit "map[]"⟩) =
        .ok (false, [lit "map value(map[]) is not a valid value for Required"]) ∧
    ((Required.mk none).SetOpts (some [(AllowEmptyMap, true)])).IsValid
        (.val ⟨none, .map none, lit "map[]"⟩) = .ok (true, []) ∧
    ((Required.mk none).SetOpts none).IsValid (.val ⟨none, .slice none, lit "[]"⟩) =
        .ok (false, [lit "slice value([]) is not a valid value for Required"]) ∧
    ((Required.mk none).SetOpts (some [(AllowEmptySlice, true)])).IsValid
        (.val ⟨none, .slice none, lit "[]"⟩) = .ok (true, []) :=
  ⟨(required_typed_nil_collection (Required.mk none) none none (lit "map[]")).1.2.2.1 rfl,
    (required_typed_nil_collection (Required.mk none) (some [(AllowEmptyMap, true)]) none
      (lit "map[]")).1.2.2.2 (by decide),
    (required_typed_nil_collection (Required.mk none) none none (lit "[]")).2.2.2.1 rfl,
    (required_typed_nil_collection (Required.mk none) (some [(AllowEmptySlice, true)]) none
      (lit "[]")).2.2.2.2 (by decide)⟩

/-- C18, at the failing input: with all four options enabled, the value
`MyString("hello")` of a defined type `type MyString string` is not nil and has
the kind `String`, one of the known kinds, and yet `IsValid` returns no valid
outcome: the type assertion `value.(string)` panics. -/
theorem required_all_options_defined_string (r : Required) :
    Dyn.kind ⟨some "MyString", .string (lit "hello"), lit "hello"⟩ ∈ knownKinds ∧
    (r.SetOpts (some [(AllowEmptyString, true), (AllowEmptyArray, true),
        (AllowEmptyMap, true), (AllowEmptySlice, true)])).IsValid
      (.val ⟨some "MyString", .string (lit "hello"), lit "hello"⟩) =
        .error .interfaceConversion :=
  ⟨by decide, IsValid_defined_string _ _ _ _⟩

end validation
